import Mathlib

/-!
Shallow embedding of the Matiks social/app-store aggregation pipeline
(`src/aggregator.py` and `src/sentiment.py`) and proofs about the spec's
claims concerning it.

Conventions of the embedding:
* Python strings are Lean `String`s; a nullable cell (Python `None` / pandas
  `NaN`) is `Option`.
* Python floats are modelled as `ℚ`.
* A UTC instant is modelled by its Unix-epoch seconds value (`ℚ`); the
  external `pandas.to_datetime` parsers (generic date-string parsing and
  small-number parsing) are parameters of the embedding, since pandas is an
  external library.  `Option ℚ` is a nullable instant (`none` = `NaT`/null).
* The external TextBlob base sentiment model is likewise a parameter
  `base : String → ℚ × ℚ` giving (polarity, subjectivity).
* Code that can raise is embedded in `Except String`.
All string helpers below are re-implemented over `List Char` so that every
definition evaluates inside the kernel (`decide`/`rfl`).
-/

/-- ASCII lower-casing of one character (model of `str.lower` per char). -/
def lowerChar (c : Char) : Char :=
  if 65 ≤ c.toNat && c.toNat ≤ 90 then Char.ofNat (c.toNat + 32) else c

/-- Model of Python `str.lower()` (ASCII; all patterns in the code are ASCII). -/
def toLowerStr (s : String) : String := ⟨s.data.map lowerChar⟩

/-- `isPrefixOfCh pat l` : does `pat` occur at the head of `l`? -/
def isPrefixOfCh : List Char → List Char → Bool
  | [], _ => true
  | _ :: _, [] => false
  | a :: as, b :: bs => a = b && isPrefixOfCh as bs

/-- `isInfixOfCh pat l` : does `pat` occur contiguously anywhere in `l`? -/
def isInfixOfCh (pat : List Char) : List Char → Bool
  | [] => isPrefixOfCh pat []
  | c :: rest => isPrefixOfCh pat (c :: rest) || isInfixOfCh pat rest

/-- Model of Python `pat in s` (substring containment). -/
def strContains (s pat : String) : Bool := isInfixOfCh pat.data s.data

/-- Whitespace test used for the model of Python `str.strip()`. -/
def isWs (c : Char) : Bool := c = ' ' || c = '\t' || c = '\n' || c = '\r'

/-- Model of Python `str.strip()`. -/
def trimStr (s : String) : String :=
  ⟨((s.data.dropWhile isWs).reverse.dropWhile isWs).reverse⟩

/-- Model of Python `s[:n]` on strings (first `n` characters). -/
def strTake (s : String) (n : Nat) : String := ⟨s.data.take n⟩

/-- Non-overlapping occurrence count, model of Python `str.count(pat)`. -/
def countOccsList (pat : List Char) : List Char → Nat
  | [] => 0
  | c :: rest =>
      if isPrefixOfCh pat (c :: rest) then
        1 + countOccsList pat (rest.drop (pat.length - 1))
      else
        countOccsList pat rest
termination_by l => l.length
decreasing_by
  · simp only [List.length_cons]
    have h := List.length_drop (pat.length - 1) rest
    omega
  · simp [List.length_cons]

/-- Model of Python `s.count(pat)` for strings. -/
def countOccs (s pat : String) : Nat := countOccsList pat.data s.data

/-! ### Relevance filter — `is_matiks_relevant`, src/aggregator.py lines 82-151 -/

/-- The fixed exclusion phrases of `is_matiks_relevant`. -/
def exclude_patterns : List String :=
  ["matik tuwing", "matik na", "matik ang", "matik sa", "matik mo",
   "matik ko", "mathematics", "math problem", "math help"]

/-- The fixed inclusion phrases of `is_matiks_relevant`. -/
def include_patterns : List String :=
  ["matiks app", "matiks application", "matiks game", "matiks math",
   "matiks review", "matiks internship", "matiks company", "matiks team",
   "play matiks", "using matiks", "matiks daily", "matiks practice",
   "matiks learning", "matiks education"]

/-- Generic app-related words of `is_matiks_relevant`. -/
def app_words : List String :=
  ["app", "application", "game", "play", "download", "install", "review",
   "rating", "update", "version"]

/-- Generic company/education words of `is_matiks_relevant`. -/
def company_words : List String :=
  ["company", "team", "internship", "job", "work", "career", "education",
   "learning", "practice"]

/-- Embedding of `is_matiks_relevant` (src/aggregator.py lines 82-151).
`none` models a null/NaN input; the code's `not text or pd.isna(text)`
check maps `none` and `""` to `false`. -/
def is_matiks_relevant (text : Option String) : Bool :=
  match text with
  | none => false
  | some t =>
    if t = "" then false
    else
      let tl := toLowerStr t
      if ¬ strContains tl "matiks" then false
      else if exclude_patterns.any (fun p => strContains tl p) then false
      else if include_patterns.any (fun p => strContains tl p) then true
      else if countOccs tl "matiks" > 1 then true
      else if app_words.any (fun w => strContains tl w) then true
      else if company_words.any (fun w => strContains tl w) then true
      else false

/-- C6: an input with no brand token (or null/empty) is never relevant. -/
theorem is_matiks_relevant_false_of_no_brand (t : Option String)
    (h : ∀ s, t = some s → strContains (toLowerStr s) "matiks" = false) :
    is_matiks_relevant t = false := by
  match t with
  | none => rfl
  | some s =>
    have hs := h s rfl
    unfold is_matiks_relevant
    by_cases he : s = ""
    · simp [he]
    · simp [he, hs]

/-- C6 witness: the near-homonym phrase `"matik tuwing may oras"` contains
`matik` but not the brand token `matiks`, so it is filtered out. -/
theorem is_matiks_relevant_false_of_no_brand_witness :
    is_matiks_relevant (some "matik tuwing may oras") = false :=
  is_matiks_relevant_false_of_no_brand (some "matik tuwing may oras")
    (by intro s hs; cases hs; decide)

/-- C7: if the brand token and an inclusion phrase are present and no
exclusion phrase is, the text is relevant; and exclusions outrank
inclusions — any exclusion phrase forces `false` regardless. -/
theorem is_matiks_relevant_include_exclude (s : String) :
    (strContains (toLowerStr s) "matiks" = true →
      include_patterns.any (fun p => strContains (toLowerStr s) p) = true →
      exclude_patterns.any (fun p => strContains (toLowerStr s) p) = false →
      is_matiks_relevant (some s) = true) ∧
    (exclude_patterns.any (fun p => strContains (toLowerStr s) p) = true →
      is_matiks_relevant (some s) = false) := by
  constructor
  · intro hb hi he
    have hne : ¬ s = "" := by
      intro h
      subst h
      simp [toLowerStr, strContains, isInfixOfCh, isPrefixOfCh] at hb
    unfold is_matiks_relevant
    simp [hne, hb, he, hi]
  · intro he
    unfold is_matiks_relevant
    by_cases hne : s = ""
    · simp [hne]
    · by_cases hb : strContains (toLowerStr s) "matiks"
      · simp [hne, hb, he]
      · simp [hne, hb]

/-- C7 witness: a text with the brand token and the inclusion phrase
`"matiks app"` and no exclusion phrase is relevant; a text containing the
exclusion phrase `"matik na"` is rejected even though it also contains an
inclusion phrase. -/
theorem is_matiks_relevant_include_exclude_witness :
    is_matiks_relevant (some "I love the Matiks app") = true ∧
    is_matiks_relevant (some "matiks app pero matik na") = false :=
  ⟨(is_matiks_relevant_include_exclude "I love the Matiks app").1
      (by decide) (by decide) (by decide),
   (is_matiks_relevant_include_exclude "matiks app pero matik na").2
      (by decide)⟩

/-! ### Unified timestamp converter — `_to_datetime_utc`, src/aggregator.py lines 68-79 -/

/-- A raw Python cell value fed to the timestamp converter: null, a float
NaN, a number (int/float, as `ℚ`), or a string. -/
inductive PyVal where
  | vnone : PyVal
  | vnan : PyVal
  | vnum : ℚ → PyVal
  | vstr : String → PyVal
deriving DecidableEq

/-- Embedding of `_to_datetime_utc` (src/aggregator.py lines 68-79).
`numP` models `pd.to_datetime(val, utc=True, errors="coerce")` on a number
not above 10000, `strP` models it on a string; both are external pandas
parsers returning the parsed instant (epoch seconds) or `none` when the
coercion yields `NaT`.  A number strictly above 10000 is read as Unix epoch
seconds directly.  The Python body wraps everything in
`try/except: return None` and uses `errors="coerce"`, so the function is
total — which the `Option ℚ` codomain reflects: there is no error case. -/
def _to_datetime_utc (numP : ℚ → Option ℚ) (strP : String → Option ℚ) :
    PyVal → Option ℚ
  | .vnone => none
  | .vnan => none
  | .vnum q => if 10000 < q then some q else numP q
  | .vstr s => strP s

/-- C8: the converter is total (it returns `Option`, never an error) and
dispatches as specified: null and NaN yield null; a numeric value strictly
greater than 10000 is interpreted as Unix epoch seconds; any other numeric
value and any string are handed to the generic pandas parser. -/
theorem to_datetime_utc_spec (numP : ℚ → Option ℚ) (strP : String → Option ℚ) :
    _to_datetime_utc numP strP .vnone = none ∧
    _to_datetime_utc numP strP .vnan = none ∧
    (∀ q : ℚ, 10000 < q → _to_datetime_utc numP strP (.vnum q) = some q) ∧
    (∀ q : ℚ, q ≤ 10000 → _to_datetime_utc numP strP (.vnum q) = numP q) ∧
    (∀ s : String, _to_datetime_utc numP strP (.vstr s) = strP s) := by
  refine ⟨rfl, rfl, ?_, ?_, fun s => rfl⟩
  · intro q hq
    simp [_to_datetime_utc, hq]
  · intro q hq
    simp [_to_datetime_utc, not_lt.mpr hq]

/-- C8 witness: with parsers that always fail, the epoch value 1700000000
is still recognised as Unix seconds, null maps to null, and a small number
goes through the generic parser (here yielding null). -/
theorem to_datetime_utc_spec_witness :
    _to_datetime_utc (fun _ => none) (fun _ => none) (.vnum 1700000000)
        = some 1700000000 ∧
    _to_datetime_utc (fun _ => none) (fun _ => none) .vnone = none ∧
    _to_datetime_utc (fun _ => none) (fun _ => none) (.vnum 5) = none :=
  ⟨(to_datetime_utc_spec (fun _ => none) (fun _ => none)).2.2.1 1700000000
      (by norm_num),
   (to_datetime_utc_spec (fun _ => none) (fun _ => none)).1,
   (to_datetime_utc_spec (fun _ => none) (fun _ => none)).2.2.2.1 5
      (by norm_num)⟩

/-! ### Sentiment scorer — `analyze_text`, src/sentiment.py lines 24-123 -/

/-- Result record of `analyze_text` (src/sentiment.py `SentimentResult`). -/
structure SentimentResult where
  polarity : ℚ
  subjectivity : ℚ
  label : String
deriving DecidableEq

/-- Embedding of `_safe_text` (src/sentiment.py lines 16-21): null/NaN
becomes `""`, otherwise the string is stripped. -/
def _safe_text (val : Option String) : String :=
  match val with
  | none => ""
  | some s => trimStr s

/-- Hindi positive words (src/sentiment.py line 39). -/
def hindi_positive_words : List String :=
  ["bahut", "badhiya", "accha", "achha", "dil", "maza", "mast", "kamaal",
   "shaandaar", "zabardast"]

/-- Hindi negative words (src/sentiment.py line 41). -/
def hindi_negative_words : List String :=
  ["bura", "kharab", "bekar", "gandi"]

/-- Positive context phrases (src/sentiment.py lines 50-61). -/
def positive_contexts : List String :=
  ["crazy app", "crazy good", "crazy awesome",
   "brain rot away", "keeps brain rot away", "prevents brain rot",
   "crazy how this app", "crazy how this", "crazy this app",
   "finally gained", "finally got", "feels so good", "dopamine rush",
   "mad dopamine", "addicted with", "leaderboard", "rankings",
   "1600 rating", "1600+ rating", "rating!!!!!", "feels good man",
   "highly recommend", "completely changed", "used to hate", "now i do",
   "mental math", "10-minute duels", "daily practice",
   "unmatched", "speed and accuracy", "addictive", "1-minute duels",
   "comparing vs", "vs other math apps", "focus is unmatched"]

/-- Achievement/excitement phrase patterns (src/sentiment.py lines 77-84). -/
def achievement_patterns : List String :=
  ["finally gained", "finally got", "finally achieved",
   "feels so good", "feels good", "so good man",
   "dopamine rush", "mad dopamine", "addicted with",
   "leaderboard", "rankings", "rating!!!!!",
   "grinding daily", "daily for past", "months finally",
   "used to hate", "now i do", "completely changed"]

/-- Explicit negative-complaint patterns (src/sentiment.py lines 89-94). -/
def negative_patterns : List String :=
  ["matiks is terrible", "matiks is awful", "matiks is horrible",
   "matiks keeps crashing", "matiks is buggy", "matiks doesnt work",
   "hate matiks", "worst math app", "matiks is useless",
   "matiks customer service", "matiks support is", "matiks never responds"]

/-- `sum(1 for p in pats if p in tl)` — how many of the listed phrases occur. -/
def countIn (pats : List String) (tl : String) : Nat :=
  (pats.filter (fun p => strContains tl p)).length

/-- Bonus when `crazy` co-occurs with favorable app words
(src/sentiment.py lines 65-66). -/
def crazyBonus (tl : String) : Nat :=
  if strContains tl "crazy" &&
      ["app", "made me", "how this", "awesome", "amazing", "good"].any
        (fun w => strContains tl w) then 1 else 0

/-- Bonus when comparison language co-occurs with superiority words
(src/sentiment.py lines 69-70). -/
def comparingBonus (tl : String) : Nat :=
  if strContains tl "comparing" &&
      ["unmatched", "addictive", "better", "superior"].any
        (fun w => strContains tl w) then 1 else 0

/-- Bonus when `addictive` co-occurs with product nouns
(src/sentiment.py lines 73-74). -/
def addictiveBonus (tl : String) : Nat :=
  if strContains tl "addictive" &&
      ["duels", "game", "app", "matiks"].any (fun w => strContains tl w)
    then 1 else 0

/-- Bonus when any achievement/excitement pattern occurs
(src/sentiment.py lines 85-86). -/
def achievementBonus (tl : String) : Nat :=
  if achievement_patterns.any (fun p => strContains tl p) then 1 else 0

/-- Hindi-word polarity adjustment (src/sentiment.py lines 103-106). -/
def adjustHindi (hp hn : Nat) (p : ℚ) : ℚ :=
  if hp > 0 ∧ hn = 0 then max (p + 3/10) (2/10)
  else if hn > 0 ∧ hp = 0 then min (p - 3/10) (-(2/10))
  else p

/-- Positive-context polarity adjustment (src/sentiment.py lines 109-110). -/
def adjustPos (pc : Nat) (p : ℚ) : ℚ :=
  if pc > 0 then max (p + 1/2) (3/10) else p

/-- Negative-context polarity adjustment (src/sentiment.py lines 113-114). -/
def adjustNeg (nc : Nat) (p : ℚ) : ℚ :=
  if nc > 0 then min (p - 2/5) (-(3/10)) else p

/-- Label assignment from polarity (src/sentiment.py lines 116-121). -/
def sentLabel (th p : ℚ) : String :=
  if p ≥ th then "positive" else if p ≤ -th then "negative" else "neutral"

/-- The total positive-context count of `analyze_text`: the curated phrase
count plus the four co-occurrence bonuses (src/sentiment.py lines 62-86). -/
def positiveContextCount (tl : String) : Nat :=
  countIn positive_contexts tl + crazyBonus tl + comparingBonus tl
    + addictiveBonus tl + achievementBonus tl

/-- The three ordered corrective adjustments of `analyze_text` applied to
the base polarity `p0` of the lower-cased text `tl`
(src/sentiment.py lines 103-114). -/
def adjustedPolarity (tl : String) (p0 : ℚ) : ℚ :=
  adjustNeg (countIn negative_patterns tl)
    (adjustPos (positiveContextCount tl)
      (adjustHindi (countIn hindi_positive_words tl)
        (countIn hindi_negative_words tl) p0))

/-- Embedding of `analyze_text` (src/sentiment.py lines 24-123).
`base s = (polarity, subjectivity)` models `TextBlob(s).sentiment`, the
external base lexical model; `th` is `neutral_threshold` (the code's
default is `1/20 = 0.05`). -/
def analyze_text (base : String → ℚ × ℚ) (th : ℚ) (text : Option String) :
    SentimentResult :=
  if _safe_text text = "" then ⟨0, 0, "neutral"⟩
  else
    ⟨adjustedPolarity (toLowerStr (_safe_text text)) (base (_safe_text text)).1,
     (base (_safe_text text)).2,
     sentLabel th
       (adjustedPolarity (toLowerStr (_safe_text text))
         (base (_safe_text text)).1)⟩

/-- If the base polarity is in `[-1, 1]`, the Hindi adjustment stays in
`[-13/10, 13/10]`. -/
theorem adjustHindi_bounds (hp hn : Nat) (p : ℚ) (h1 : -1 ≤ p) (h2 : p ≤ 1) :
    -(13/10) ≤ adjustHindi hp hn p ∧ adjustHindi hp hn p ≤ 13/10 := by
  unfold adjustHindi
  split_ifs with hA hB
  · constructor
    · have := le_max_right (p + 3/10) ((2 : ℚ)/10)
      linarith
    · apply max_le <;> linarith
  · constructor
    · apply le_min <;> linarith
    · have := min_le_right (p - 3/10) (-((2 : ℚ)/10))
      linarith
  · constructor <;> linarith

/-- The positive-context adjustment maps `[-13/10, 13/10]` into
`[-13/10, 9/5]`. -/
theorem adjustPos_bounds (pc : Nat) (p : ℚ) (h1 : -(13/10) ≤ p)
    (h2 : p ≤ 13/10) :
    -(13/10) ≤ adjustPos pc p ∧ adjustPos pc p ≤ 9/5 := by
  unfold adjustPos
  split_ifs with hA
  · constructor
    · have := le_max_right (p + 1/2) ((3 : ℚ)/10)
      linarith
    · apply max_le <;> linarith
  · constructor <;> linarith

/-- The negative-context adjustment maps `[-13/10, 9/5]` into
`[-17/10, 9/5]`. -/
theorem adjustNeg_bounds (nc : Nat) (p : ℚ) (h1 : -(13/10) ≤ p)
    (h2 : p ≤ 9/5) :
    -(17/10) ≤ adjustNeg nc p ∧ adjustNeg nc p ≤ 9/5 := by
  unfold adjustNeg
  split_ifs with hA
  · constructor
    · apply le_min <;> linarith
    · have := min_le_right (p - 2/5) (-((3 : ℚ)/10))
      linarith
  · constructor <;> linarith

/-- C1 counterexample: with a base model that always reports polarity 1
(within the claimed base range `[-1, 1]`) and subjectivity 0, the text
`"bahut"` triggers the Hindi-word boost `max(p + 0.3, 0.2)` and the final
polarity is `13/10 > 1` — the corrective adjustments can push the final
polarity above 1, refuting the claimed `[-1, 1]` range. -/
theorem analyze_text_polarity_exceeds_one :
    1 < (analyze_text (fun _ => ((1 : ℚ), 0)) (1/20) (some "bahut")).polarity := by
  have hsafe : _safe_text (some "bahut") = "bahut" := by decide
  have hne : ("bahut" : String) ≠ "" := by decide
  have hhp : countIn hindi_positive_words (toLowerStr "bahut") = 1 := by decide
  have hhn : countIn hindi_negative_words (toLowerStr "bahut") = 0 := by decide
  have hpc : positiveContextCount (toLowerStr "bahut") = 0 := by decide
  have hnc : countIn negative_patterns (toLowerStr "bahut") = 0 := by decide
  have hH : adjustHindi 1 0 (1 : ℚ) = 13/10 := by
    unfold adjustHindi
    rw [if_pos (by norm_num)]
    rw [max_eq_left (by norm_num)]
    norm_num
  have hval : adjustedPolarity (toLowerStr "bahut") 1 = 13/10 := by
    unfold adjustedPolarity
    rw [hhp, hhn, hpc, hnc, hH]
    unfold adjustPos adjustNeg
    norm_num
  simp only [analyze_text, hsafe, if_neg hne, hval]
  norm_num

/-- C1 amended: assuming the base model's polarity lies in `[-1, 1]` and its
subjectivity in `[0, 1]`, `analyze_text` returns a polarity in
`[-17/10, 9/5]` (the exact envelope of the corrective adjustments: Hindi
boost up to `13/10`, positive-context boost up to `9/5`, negative-context
penalty down to `-17/10`) and a subjectivity in `[0, 1]`. -/
theorem analyze_text_range (base : String → ℚ × ℚ) (th : ℚ) (text : Option String)
    (hb : ∀ s, -1 ≤ (base s).1 ∧ (base s).1 ≤ 1)
    (hs : ∀ s, 0 ≤ (base s).2 ∧ (base s).2 ≤ 1) :
    (-(17/10) ≤ (analyze_text base th text).polarity ∧
      (analyze_text base th text).polarity ≤ 9/5) ∧
    (0 ≤ (analyze_text base th text).subjectivity ∧
      (analyze_text base th text).subjectivity ≤ 1) := by
  unfold analyze_text
  by_cases he : _safe_text text = ""
  · simp only [he, if_pos rfl]
    norm_num
  · simp only [if_neg he]
    set t := _safe_text text
    have h1 := adjustHindi_bounds (countIn hindi_positive_words (toLowerStr t))
      (countIn hindi_negative_words (toLowerStr t)) ((base t).1)
      (hb t).1 (hb t).2
    have h2 := adjustPos_bounds (positiveContextCount (toLowerStr t)) _
      h1.1 h1.2
    have h3 := adjustNeg_bounds (countIn negative_patterns (toLowerStr t)) _
      h2.1 h2.2
    exact ⟨⟨h3.1, h3.2⟩, (hs t).1, (hs t).2⟩

/-- C1 witness: with the all-zero base model the bounds hold at a concrete
text. -/
theorem analyze_text_range_witness :
    (-(17/10) ≤ (analyze_text (fun _ => ((0 : ℚ), 0)) (1/20)
        (some "matiks is fine")).polarity ∧
      (analyze_text (fun _ => ((0 : ℚ), 0)) (1/20)
        (some "matiks is fine")).polarity ≤ 9/5) ∧
    (0 ≤ (analyze_text (fun _ => ((0 : ℚ), 0)) (1/20)
        (some "matiks is fine")).subjectivity ∧
      (analyze_text (fun _ => ((0 : ℚ), 0)) (1/20)
        (some "matiks is fine")).subjectivity ≤ 1) :=
  analyze_text_range (fun _ => ((0 : ℚ), 0)) (1/20) (some "matiks is fine")
    (fun _ => by norm_num) (fun _ => by norm_num)

/-! ### Canonical Mention rows and the source normalizers
(src/aggregator.py lines 154-297) -/

/-- A Canonical Mention row (the column set every normalizer emits and the
merge engine consumes).  Nullable columns are `Option` (`none` = NaN); the
sentiment columns are absent (`none`) until `add_sentiment_columns` runs. -/
structure CanonRow where
  platform : Option String
  type : Option String
  author : Option String
  url : Option String
  timestamp : Option ℚ
  engagement_likes : Int
  engagement_comments : Int
  engagement_shares : Int
  text : Option String
  rating : Option String
  app_version : Option String
  sentiment_polarity : Option ℚ
  sentiment_subjectivity : Option ℚ
  sentiment_label : Option String
deriving DecidableEq

/-- A raw forum (Reddit) row as consumed by `normalize_reddit`. -/
structure RawReddit where
  title : Option String
  content : Option String
  author : Option String
  url : Option String
  created_utc : PyVal
  score : Option Int
  num_comments : Option Int
deriving DecidableEq

/-- The `text` built for a forum row: `(title + "\n" + content).str.strip()`
(src/aggregator.py lines 158-160). -/
def redditText (r : RawReddit) : String :=
  trimStr ((r.title.getD "") ++ "\n" ++ (r.content.getD ""))

/-- Embedding of `normalize_reddit` (src/aggregator.py lines 154-183):
build the text, keep only relevance-passing rows, then map each survivor to
a canonical row.  Field order of `CanonRow`: platform, type, author, url,
timestamp, likes, comments, shares, text, rating, app_version,
sentiment columns. -/
def normalize_reddit (numP : ℚ → Option ℚ) (strP : String → Option ℚ)
    (rows : List RawReddit) : List CanonRow :=
  (rows.filter (fun r => is_matiks_relevant (some (redditText r)))).map
    (fun r =>
      ⟨some "Reddit", some "social", some (r.author.getD ""),
       some (r.url.getD ""), _to_datetime_utc numP strP r.created_utc,
       r.score.getD 0, r.num_comments.getD 0, 0, some (redditText r),
       some "", some "", none, none, none⟩)

/-- A raw app-store review row as consumed by `normalize_google_play` and
`normalize_apple_store`. -/
structure RawReview where
  author : Option String
  date : PyVal
  review_text : Option String
  rating : Option String
  version : Option String
deriving DecidableEq

/-- Embedding of `normalize_google_play` (src/aggregator.py lines 260-277). -/
def normalize_google_play (numP : ℚ → Option ℚ) (strP : String → Option ℚ)
    (rows : List RawReview) : List CanonRow :=
  rows.map (fun r =>
    ⟨some "Google Play", some "review", some (r.author.getD ""), some "",
     _to_datetime_utc numP strP r.date, 0, 0, 0,
     some (r.review_text.getD ""), some (r.rating.getD ""),
     some (r.version.getD ""), none, none, none⟩)

/-- Embedding of `normalize_apple_store` (src/aggregator.py lines 280-297). -/
def normalize_apple_store (numP : ℚ → Option ℚ) (strP : String → Option ℚ)
    (rows : List RawReview) : List CanonRow :=
  rows.map (fun r =>
    ⟨some "Apple App Store", some "review", some (r.author.getD ""), some "",
     _to_datetime_utc numP strP r.date, 0, 0, 0,
     some (r.review_text.getD ""), some (r.rating.getD ""),
     some (r.version.getD ""), none, none, none⟩)

/-- The raw forum row of the C3 scenario. -/
def rawC3 : RawReddit :=
  ⟨some "Matiks app review", some "", some "u1", some ".../p/1",
   .vnum 1700000000, some 5, some 2⟩

/-- C3 counterexample: on the scenario row, the single canonical row
produced by `normalize_reddit` has `text = "Matiks app review"` — the code
strips the concatenation `title + "\n" + content`, so the claimed
`"Matiks app review\n"` (with its trailing newline) is not what is stored. -/
theorem normalize_reddit_scenario_text_stripped :
    (normalize_reddit (fun _ => none) (fun _ => none) [rawC3]).map
        (fun r => r.text) = [some "Matiks app review"] := by
  decide

/-- C3 amended: the scenario row yields exactly one canonical row with
`platform = "Reddit"`, `type = "social"`, `timestamp` the UTC instant for
Unix epoch 1700000000, and `text = "Matiks app review"` — the title
concatenated with `"\n"` and the empty body, then stripped of surrounding
whitespace (so the trailing newline is removed). -/
theorem normalize_reddit_scenario :
    normalize_reddit (fun _ => none) (fun _ => none) [rawC3] =
      [⟨some "Reddit", some "social", some "u1", some ".../p/1",
        some 1700000000, 5, 2, 0, some "Matiks app review", some "",
        some "", none, none, none⟩] := by
  decide

/-- C9: every row produced by the review-source normalizers has
`type = "review"`, all engagement counters 0, and an empty `url`. -/
theorem review_normalizers_defaults (numP : ℚ → Option ℚ)
    (strP : String → Option ℚ) (rows : List RawReview) :
    (∀ r ∈ normalize_google_play numP strP rows,
      r.type = some "review" ∧ r.engagement_likes = 0 ∧
      r.engagement_comments = 0 ∧ r.engagement_shares = 0 ∧
      r.url = some "") ∧
    (∀ r ∈ normalize_apple_store numP strP rows,
      r.type = some "review" ∧ r.engagement_likes = 0 ∧
      r.engagement_comments = 0 ∧ r.engagement_shares = 0 ∧
      r.url = some "") := by
  constructor <;>
  · intro r hr
    obtain ⟨a, _, rfl⟩ := List.mem_map.mp hr
    exact ⟨rfl, rfl, rfl, rfl, rfl⟩

/-- C9 witness: the invariant at a concrete Google Play review row. -/
theorem review_normalizers_defaults_witness :
    (⟨some "Google Play", some "review", some "u", some "", none, 0, 0, 0,
      some "great app", some "5", some "1.0", none, none,
      none⟩ : CanonRow).type = some "review" ∧
    (⟨some "Google Play", some "review", some "u", some "", none, 0, 0, 0,
      some "great app", some "5", some "1.0", none, none,
      none⟩ : CanonRow).engagement_likes = 0 ∧
    (⟨some "Google Play", some "review", some "u", some "", none, 0, 0, 0,
      some "great app", some "5", some "1.0", none, none,
      none⟩ : CanonRow).engagement_comments = 0 ∧
    (⟨some "Google Play", some "review", some "u", some "", none, 0, 0, 0,
      some "great app", some "5", some "1.0", none, none,
      none⟩ : CanonRow).engagement_shares = 0 ∧
    (⟨some "Google Play", some "review", some "u", some "", none, 0, 0, 0,
      some "great app", some "5", some "1.0", none, none,
      none⟩ : CanonRow).url = some "" :=
  (review_normalizers_defaults (fun _ => none) (fun _ => none)
      [⟨some "u", .vnone, some "great app", some "5", some "1.0"⟩]).1
    ⟨some "Google Play", some "review", some "u", some "", none, 0, 0, 0,
      some "great app", some "5", some "1.0", none, none, none⟩
    (by decide)

/-! ### Merge & dedup engine — `dedupe`, src/aggregator.py lines 312-333 -/

/-- Which of the six identity-key columns are present in a table.  pandas
column presence is table-level: a malformed table may lack a column
entirely, which is different from a present column holding NaN cells. -/
structure ColPresence where
  platform : Bool
  type : Bool
  url : Bool
  author : Bool
  timestamp : Bool
  text : Bool
deriving DecidableEq

/-- All six identity-key columns present (every canonical table). -/
def allSix : ColPresence := ⟨true, true, true, true, true, true⟩

/-- A pandas DataFrame over the canonical schema: its key-column presence
plus its rows. -/
structure PTable where
  present : ColPresence
  rows : List CanonRow
deriving DecidableEq

/-- Model of `.astype(str)` on a nullable string column *without* a
preceding `fillna`: a NaN cell stringifies to `"nan"`. -/
def optStr : Option String → String
  | none => "nan"
  | some s => s

/-- Model of `.fillna("").astype(str)` on the timestamp column: NaT becomes
`""`, a present instant its string form. -/
def tsStr : Option ℚ → String
  | none => ""
  | some q => toString q

/-- The composite dedup identity key of `dedupe` (src/aggregator.py lines
319-331): `platform|type|url|author|timestamp|text[:200]`, where `url`,
`author`, `timestamp` and `text` go through `fillna("")` but `platform` and
`type` do not. -/
def codeKey (r : CanonRow) : String :=
  optStr r.platform ++ "|" ++ optStr r.type ++ "|" ++ (r.url.getD "") ++ "|"
    ++ (r.author.getD "") ++ "|" ++ tsStr r.timestamp ++ "|"
    ++ strTake (r.text.getD "") 200

/-- Boolean list membership for key strings (kernel-evaluable). -/
def memB (k : String) : List String → Bool
  | [] => false
  | s :: rest => if k = s then true else memB k rest

/-- Model of `drop_duplicates(subset=["__dedupe_key"])` (keep
`"first"`, the pandas default): scan left to right, keep a row only when
its key has not been seen before. -/
def keepFirstAux (key : CanonRow → String) (seen : List String) :
    List CanonRow → List CanonRow
  | [] => []
  | r :: rs =>
      if memB (key r) seen then keepFirstAux key seen rs
      else r :: keepFirstAux key (key r :: seen) rs

/-- The seen-key set after a `keepFirstAux` scan. -/
def seenOut (key : CanonRow → String) (seen : List String) :
    List CanonRow → List String
  | [] => seen
  | r :: rs =>
      if memB (key r) seen then seenOut key seen rs
      else seenOut key (key r :: seen) rs

/-- The `dropna(subset=["platform"])` row predicate. -/
def hasPlatform (r : CanonRow) : Bool := r.platform.isSome

/-- Embedding of `dedupe` (src/aggregator.py lines 312-333).  An empty
table is returned as-is.  On a non-empty table, `df.dropna(subset=
["platform"])` raises `KeyError` when the `platform` column is absent, and
the key construction uses `df.get(col)` with no default, so an absent
`type`/`url`/`author`/`timestamp`/`text` column makes `.astype`/`.fillna`
raise `AttributeError` on `None`; these raises are the `Except.error`
cases.  Otherwise null-platform rows are dropped and later rows with an
already-seen identity key are removed. -/
def dedupe (t : PTable) : Except String PTable :=
  if t.rows = [] then .ok t
  else if t.present.platform = false then .error "KeyError: platform"
  else if t.present.type = false then .error "AttributeError: type"
  else if t.present.url = false then .error "AttributeError: url"
  else if t.present.author = false then .error "AttributeError: author"
  else if t.present.timestamp = false then .error "AttributeError: timestamp"
  else if t.present.text = false then .error "AttributeError: text"
  else .ok ⟨t.present, keepFirstAux codeKey [] (t.rows.filter hasPlatform)⟩

/-- The row-level dedup applied to a canonical (all-columns-present) table;
`dedupe ⟨allSix, rows⟩ = .ok ⟨allSix, dedupeRows rows⟩`. -/
def dedupeRows (rows : List CanonRow) : List CanonRow :=
  if rows = [] then rows
  else keepFirstAux codeKey [] (rows.filter hasPlatform)

/-- Embedding of `merge` (§4.4; the concatenation at src/aggregator.py line
815 followed by `dedupe` at line 823): existing rows precede incoming rows. -/
def merge (existing incoming : List CanonRow) : List CanonRow :=
  dedupeRows (existing ++ incoming)

/-- The per-row sentiment enrichment of `add_sentiment_columns`
(src/sentiment.py lines 142-148): only the three sentiment columns change,
computed from the row's `text` column alone. -/
def sentRow (base : String → ℚ × ℚ) (th : ℚ) (r : CanonRow) : CanonRow :=
  ⟨r.platform, r.type, r.author, r.url, r.timestamp, r.engagement_likes,
   r.engagement_comments, r.engagement_shares, r.text, r.rating,
   r.app_version, some (analyze_text base th r.text).polarity,
   some (analyze_text base th r.text).subjectivity,
   some (analyze_text base th r.text).label⟩

/-- Embedding of `add_sentiment_columns` (src/sentiment.py lines 126-149)
over a canonical table, with `text` as the chosen text column (what
`choose_text_column` picks for the canonical schema). -/
def add_sentiment_columns (base : String → ℚ × ℚ) (th : ℚ)
    (rows : List CanonRow) : List CanonRow :=
  rows.map (sentRow base th)

/-! ### Properties of the keep-first scan -/

theorem memB_iff (k : String) (l : List String) : memB k l = true ↔ k ∈ l := by
  induction l with
  | nil => simp [memB]
  | cons s rest ih =>
    simp only [memB]
    by_cases h : k = s
    · simp [h]
    · simp [h, ih, List.mem_cons]

theorem memB_eq_false_iff (k : String) (l : List String) :
    memB k l = false ↔ k ∉ l := by
  rw [← memB_iff k l]
  cases memB k l <;> simp

theorem keepFirstAux_sublist (key : CanonRow → String) (seen : List String)
    (l : List CanonRow) : (keepFirstAux key seen l).Sublist l := by
  induction l generalizing seen with
  | nil => simp [keepFirstAux]
  | cons r rs ih =>
    simp only [keepFirstAux]
    split_ifs with h
    · exact List.Sublist.cons r (ih seen)
    · exact List.Sublist.cons₂ r (ih (key r :: seen))

theorem keepFirstAux_keys (key : CanonRow → String) (seen : List String)
    (l : List CanonRow) :
    ((keepFirstAux key seen l).map key).Nodup ∧
      ∀ k ∈ (keepFirstAux key seen l).map key, k ∉ seen := by
  induction l generalizing seen with
  | nil => simp [keepFirstAux]
  | cons r rs ih =>
    simp only [keepFirstAux]
    split_ifs with h
    · exact ih seen
    · obtain ⟨ihn, ihs⟩ := ih (key r :: seen)
      refine ⟨?_, ?_⟩
      · simp only [List.map_cons, List.nodup_cons]
        exact ⟨fun hmem => (ihs _ hmem) (List.mem_cons_self _ _), ihn⟩
      · intro k hk
        simp only [List.map_cons, List.mem_cons] at hk
        rcases hk with rfl | hk
        · exact fun hks => h ((memB_iff _ _).mpr hks)
        · exact fun hks => (ihs k hk) (List.mem_cons_of_mem _ hks)

theorem mem_seenOut (key : CanonRow → String) (seen : List String)
    (l : List CanonRow) (k : String) :
    k ∈ seenOut key seen l ↔ k ∈ seen ∨ k ∈ l.map key := by
  induction l generalizing seen with
  | nil => simp [seenOut]
  | cons r rs ih =>
    simp only [seenOut]
    split_ifs with h
    · rw [ih]
      have hr : key r ∈ seen := (memB_iff _ _).mp h
      simp only [List.map_cons, List.mem_cons]
      constructor
      · rintro (hs | hm)
        · exact Or.inl hs
        · exact Or.inr (Or.inr hm)
      · rintro (hs | rfl | hm)
        · exact Or.inl hs
        · exact Or.inl hr
        · exact Or.inr hm
    · rw [ih]
      simp only [List.map_cons, List.mem_cons]
      tauto

theorem keepFirstAux_congr (key : CanonRow → String) (s₁ s₂ : List String)
    (hs : ∀ k, k ∈ s₁ ↔ k ∈ s₂) (l : List CanonRow) :
    keepFirstAux key s₁ l = keepFirstAux key s₂ l := by
  induction l generalizing s₁ s₂ with
  | nil => rfl
  | cons r rs ih =>
    have hm : memB (key r) s₁ = memB (key r) s₂ := by
      by_cases h : key r ∈ s₁
      · rw [(memB_iff _ _).mpr h, (memB_iff _ _).mpr ((hs _).mp h)]
      · rw [(memB_eq_false_iff _ _).mpr h,
          (memB_eq_false_iff _ _).mpr (fun hh => h ((hs _).mpr hh))]
    simp only [keepFirstAux, hm]
    split_ifs with h
    · exact ih s₁ s₂ hs
    · rw [ih (key r :: s₁) (key r :: s₂)
        (fun k => by simp only [List.mem_cons]; rw [hs k])]

theorem keepFirstAux_append (key : CanonRow → String) (seen : List String)
    (l₁ l₂ : List CanonRow) :
    keepFirstAux key seen (l₁ ++ l₂) =
      keepFirstAux key seen l₁
        ++ keepFirstAux key (seenOut key seen l₁) l₂ := by
  induction l₁ generalizing seen with
  | nil => simp [keepFirstAux, seenOut]
  | cons r rs ih =>
    simp only [List.cons_append, keepFirstAux, seenOut]
    split_ifs with h
    · exact ih seen
    · exact congrArg (fun x => r :: x) (ih (key r :: seen))

theorem keepFirstAux_eq_nil (key : CanonRow → String) (seen : List String)
    (l : List CanonRow) (h : ∀ r ∈ l, key r ∈ seen) :
    keepFirstAux key seen l = [] := by
  induction l generalizing seen with
  | nil => rfl
  | cons r rs ih =>
    have hm : memB (key r) seen = true :=
      (memB_iff _ _).mpr (h r (List.mem_cons_self _ _))
    simp only [keepFirstAux, hm, if_true]
    exact ih seen (fun x hx => h x (List.mem_cons_of_mem _ hx))

theorem keepFirstAux_eq_self (key : CanonRow → String) (seen : List String)
    (l : List CanonRow) (hnd : (l.map key).Nodup)
    (h : ∀ r ∈ l, key r ∉ seen) : keepFirstAux key seen l = l := by
  induction l generalizing seen with
  | nil => rfl
  | cons r rs ih =>
    have hnd' : (∀ x ∈ rs, ¬ key x = key r) ∧ (List.map key rs).Nodup := by
      simpa using hnd
    have hm : memB (key r) seen = false :=
      (memB_eq_false_iff _ _).mpr (h r (List.mem_cons_self _ _))
    simp only [keepFirstAux, hm, Bool.false_eq_true, if_false]
    congr 1
    apply ih (key r :: seen) hnd'.2
    intro x hx hkx
    rcases List.mem_cons.mp hkx with he | hsn
    · exact hnd'.1 x hx he
    · exact h x (List.mem_cons_of_mem _ hx) hsn

theorem keepFirstAux_mem_keys (key : CanonRow → String) (seen : List String)
    (l : List CanonRow) (r : CanonRow) (hr : r ∈ l) :
    key r ∈ seen ∨ key r ∈ (keepFirstAux key seen l).map key := by
  induction l generalizing seen with
  | nil => cases hr
  | cons a rs ih =>
    rcases List.mem_cons.mp hr with rfl | hr'
    · by_cases h : memB (key r) seen = true
      · exact Or.inl ((memB_iff _ _).mp h)
      · right
        simp [keepFirstAux, h]
    · by_cases h : memB (key a) seen = true
      · have := ih seen hr'
        simpa [keepFirstAux, h] using this
      · rcases ih (key a :: seen) hr' with hs | hm
        · rcases List.mem_cons.mp hs with he | hs'
          · right
            simp [keepFirstAux, h, he]
          · exact Or.inl hs'
        · right
          simp only [keepFirstAux, h, Bool.false_eq_true, if_false,
            List.map_cons, List.mem_cons]
          exact Or.inr hm

theorem keepFirstAux_first_mem (key : CanonRow → String) :
    ∀ (l : List CanonRow) (seen : List String) (i : Nat) (hi : i < l.length),
      key (l.get ⟨i, hi⟩) ∉ seen →
      (∀ j (hj : j < l.length), j < i →
        key (l.get ⟨j, hj⟩) ≠ key (l.get ⟨i, hi⟩)) →
      l.get ⟨i, hi⟩ ∈ keepFirstAux key seen l := by
  intro l
  induction l with
  | nil => intro seen i hi; exact absurd hi (Nat.not_lt_zero i)
  | cons a rs ih =>
    intro seen i hi hns hfirst
    cases i with
    | zero =>
      have hm : memB (key a) seen = false := (memB_eq_false_iff _ _).mpr hns
      simp [keepFirstAux, hm]
    | succ i' =>
      have hi' : i' < rs.length := Nat.lt_of_succ_lt_succ hi
      by_cases h : memB (key a) seen = true
      · have hrec := ih seen i' hi' hns
          (fun j hj hji => hfirst (j + 1) (Nat.succ_lt_succ hj)
            (Nat.succ_lt_succ hji))
        simp only [keepFirstAux, h, if_true]
        exact hrec
      · have hne : key a ≠ key (rs.get ⟨i', hi'⟩) :=
          hfirst 0 (Nat.succ_pos rs.length) (Nat.succ_pos i')
        have hns' : key (rs.get ⟨i', hi'⟩) ∉ key a :: seen := by
          intro hmem
          rcases List.mem_cons.mp hmem with he | hsn
          · exact hne he.symm
          · exact hns hsn
        have hrec := ih (key a :: seen) i' hi' hns'
          (fun j hj hji => hfirst (j + 1) (Nat.succ_lt_succ hj)
            (Nat.succ_lt_succ hji))
        simp only [keepFirstAux, h, Bool.false_eq_true, if_false]
        exact List.mem_cons_of_mem a hrec

theorem keepFirstAux_map (key : CanonRow → String) (f : CanonRow → CanonRow)
    (hf : ∀ r, key (f r) = key r) (seen : List String) (l : List CanonRow) :
    keepFirstAux key seen (l.map f) = (keepFirstAux key seen l).map f := by
  induction l generalizing seen with
  | nil => rfl
  | cons r rs ih =>
    simp only [List.map_cons, keepFirstAux, hf r]
    split_ifs with h
    · exact ih seen
    · rw [List.map_cons, ih (key r :: seen)]

theorem filter_map_comm (p : CanonRow → Bool) (f : CanonRow → CanonRow)
    (hp : ∀ r, p (f r) = p r) (l : List CanonRow) :
    (l.map f).filter p = (l.filter p).map f := by
  induction l with
  | nil => rfl
  | cons r rs ih =>
    simp only [List.map_cons, List.filter_cons, hp r]
    split_ifs with h
    · simp only [List.map_cons, ih]
    · exact ih

theorem dedupeRows_eq (rows : List CanonRow) :
    dedupeRows rows = keepFirstAux codeKey [] (rows.filter hasPlatform) := by
  by_cases h : rows = []
  · subst h
    rfl
  · simp [dedupeRows, h]

theorem dedupe_allSix (rows : List CanonRow) :
    dedupe ⟨allSix, rows⟩ = .ok ⟨allSix, dedupeRows rows⟩ := by
  by_cases h : rows = []
  · subst h
    rfl
  · simp [dedupe, dedupeRows, h, allSix]

/-! ### The merge/dedup claims -/

/-- `Except` success test. -/
def isOkE (e : Except String PTable) : Bool :=
  match e with
  | .ok _ => true
  | .error _ => false

/-- A well-formed canonical row used in the concrete tables below. -/
def rowW : CanonRow :=
  ⟨some "Reddit", some "social", some "a", some "u", none, 1, 2, 3,
   some "matiks app", some "", some "", none, none, none⟩

/-- C2 counterexample: on a non-empty table whose `url` column is absent,
`dedupe` raises (`df.get("url")` yields `None`, and `None.fillna` raises
`AttributeError`) instead of proceeding with an empty default — so `dedupe`
is not total on malformed tables missing key columns. -/
theorem dedupe_raises_on_missing_column :
    dedupe ⟨⟨true, true, false, true, true, true⟩, [rowW]⟩ =
      Except.error "AttributeError: url" := rfl

/-- C2 amended: `dedupe` never raises on an empty table nor on any table
that has all six key columns present — whatever null/missing *field values*
its rows contain; a cleaned table is returned.  (On a non-empty table
missing one of the key columns it raises.) -/
theorem dedupe_total_on_wellformed (t : PTable)
    (h : t.rows = [] ∨ t.present = allSix) :
    isOkE (dedupe t) = true := by
  rcases h with h | h
  · simp [dedupe, h, isOkE]
  · obtain ⟨p, rows⟩ := t
    simp only at h
    subst h
    rw [dedupe_allSix]
    rfl

/-- C2 witness: a one-row table with every key column present (and a null
timestamp cell) is deduped without an error. -/
theorem dedupe_total_on_wellformed_witness :
    isOkE (dedupe ⟨allSix, [rowW]⟩) = true :=
  dedupe_total_on_wellformed ⟨allSix, [rowW]⟩ (Or.inr rfl)

/-- A row whose `platform` cell is null. -/
def nullPlatformRow : CanonRow :=
  ⟨none, none, none, none, none, 0, 0, 0, none, none, none, none, none, none⟩

/-- C4 counterexample: two identical rows with a null `platform` share the
composite identity key however missing components are rendered, yet
`dedupe` keeps *zero* of them — `dropna(subset=["platform"])` removes both
before keying — rather than keeping the first as claimed. -/
theorem dedupe_drops_null_platform_duplicates :
    dedupe ⟨allSix, [nullPlatformRow, nullPlatformRow]⟩ =
      Except.ok ⟨allSix, ([] : List CanonRow)⟩ := rfl

/-- C4 amended: on a table with all key columns present whose rows all have
a non-null `platform`, `dedupe` succeeds with the keep-first scan over the
code's composite key (`platform|type|url|author|timestamp|text[:200]`,
null `url`/`author`/`timestamp`/`text` rendered as `""`): the result is a
subsequence of the input, its keys are pairwise distinct, every input key
is still represented, and any row all of whose predecessors have a
different key — in particular the first row of every duplicate group — is
kept.  (Rows with a null `platform` are dropped outright instead.) -/
theorem dedupe_keeps_first (t : PTable) (hp : t.present = allSix)
    (hplat : ∀ r ∈ t.rows, hasPlatform r = true) :
    dedupe t = Except.ok ⟨allSix, keepFirstAux codeKey [] t.rows⟩ ∧
    (keepFirstAux codeKey [] t.rows).Sublist t.rows ∧
    ((keepFirstAux codeKey [] t.rows).map codeKey).Nodup ∧
    (∀ r ∈ t.rows,
      codeKey r ∈ (keepFirstAux codeKey [] t.rows).map codeKey) ∧
    (∀ i (hi : i < t.rows.length),
      (∀ j (hj : j < t.rows.length), j < i →
        codeKey (t.rows.get ⟨j, hj⟩) ≠ codeKey (t.rows.get ⟨i, hi⟩)) →
      t.rows.get ⟨i, hi⟩ ∈ keepFirstAux codeKey [] t.rows) := by
  obtain ⟨p, rows⟩ := t
  simp only at hp hplat ⊢
  subst hp
  have hfilter : rows.filter hasPlatform = rows :=
    List.filter_eq_self.mpr hplat
  refine ⟨?_, keepFirstAux_sublist _ _ _, (keepFirstAux_keys _ _ _).1, ?_, ?_⟩
  · rw [dedupe_allSix, dedupeRows_eq, hfilter]
  · intro r hr
    rcases keepFirstAux_mem_keys codeKey [] rows r hr with hs | hm
    · exact absurd hs (List.not_mem_nil _)
    · exact hm
  · intro i hi hfirst
    exact keepFirstAux_first_mem codeKey rows [] i hi (List.not_mem_nil _)
      hfirst

/-- First of two rows identical except for `engagement_likes` (5). -/
def rowLikesA : CanonRow :=
  ⟨some "Reddit", some "social", some "a", some "u", none, 5, 0, 0,
   some "matiks app", some "", some "", none, none, none⟩

/-- Second of two rows identical except for `engagement_likes` (7). -/
def rowLikesB : CanonRow :=
  ⟨some "Reddit", some "social", some "a", some "u", none, 7, 0, 0,
   some "matiks app", some "", some "", none, none, none⟩

/-- C4 witness: two rows agreeing on every key component but differing in
`engagement_likes` dedupe to exactly one surviving row — the one appearing
first. -/
theorem dedupe_keeps_first_witness :
    dedupe ⟨allSix, [rowLikesA, rowLikesB]⟩ =
        Except.ok ⟨allSix, keepFirstAux codeKey [] [rowLikesA, rowLikesB]⟩ ∧
    keepFirstAux codeKey [] [rowLikesA, rowLikesB] = [rowLikesA] :=
  ⟨(dedupe_keeps_first ⟨allSix, [rowLikesA, rowLikesB]⟩ rfl (by decide)).1,
   by decide⟩

theorem merge_merge_eq (e i : List CanonRow) :
    merge (merge e i) i = merge e i := by
  unfold merge
  have h1 : dedupeRows (e ++ i) =
      keepFirstAux codeKey [] ((e ++ i).filter hasPlatform) :=
    dedupeRows_eq _
  set m := keepFirstAux codeKey [] ((e ++ i).filter hasPlatform) with hmdef
  rw [h1, dedupeRows_eq]
  have hmem : ∀ r ∈ m, r ∈ (e ++ i).filter hasPlatform :=
    fun r hr => (keepFirstAux_sublist codeKey [] _).subset hr
  have hFm : m.filter hasPlatform = m :=
    List.filter_eq_self.mpr
      (fun r hr => List.of_mem_filter (hmem r hr))
  rw [List.filter_append, hFm, keepFirstAux_append]
  have hkeys := keepFirstAux_keys codeKey []
    ((e ++ i).filter hasPlatform)
  have hid : keepFirstAux codeKey [] m = m :=
    keepFirstAux_eq_self codeKey [] m hkeys.1
      (fun r _ hx => absurd hx (List.not_mem_nil _))
  have hnil : keepFirstAux codeKey (seenOut codeKey [] m)
      (i.filter hasPlatform) = [] := by
    apply keepFirstAux_eq_nil
    intro r hr
    rw [mem_seenOut]
    right
    have hr2 : r ∈ (e ++ i).filter hasPlatform := by
      rw [List.filter_append]
      exact List.mem_append_right _ hr
    rcases keepFirstAux_mem_keys codeKey [] _ r hr2 with hs | hmk
    · exact absurd hs (List.not_mem_nil _)
    · exact hmk
  rw [hid, hnil, List.append_nil]

/-- C5: merging is idempotent under duplicate re-ingestion — re-merging the
same incoming rows leaves the row count unchanged (in fact, by
`merge_merge_eq`, the whole table is unchanged). -/
theorem merge_reingest_row_count (e i : List CanonRow) :
    (merge (merge e i) i).length = (merge e i).length := by
  rw [merge_merge_eq]

/-- C10: sentiment scoring commutes with deduplication: the dedup identity
key only reads `platform`/`type`/`url`/`author`/`timestamp`/`text`, none of
which `add_sentiment_columns` modifies, and the scorer is a per-row
function of the `text` column alone — so scoring before deduplicating (the
implemented pipeline order) persists the same table as deduplicating before
scoring (the spec's control-flow order). -/
theorem sentiment_dedupe_commute (base : String → ℚ × ℚ) (th : ℚ)
    (rows : List CanonRow) :
    dedupeRows (add_sentiment_columns base th rows) =
      add_sentiment_columns base th (dedupeRows rows) := by
  unfold add_sentiment_columns
  rw [dedupeRows_eq, dedupeRows_eq]
  rw [filter_map_comm hasPlatform (sentRow base th) (fun r => rfl)]
  exact keepFirstAux_map codeKey (sentRow base th) (fun r => rfl) [] _
